import Mathlib

/-!
# JuryChain case registry and vote ledger: a shallow embedding

This development embeds the `JuryChain` Solidity contract
(`src/blockchain/hardhat.config.ts`, second document: `contract JuryChain`)
into Lean 4 and proves properties of its case/vote state machine.

Modelling conventions:
* Addresses are `Nat`; the zero address is `0` (the contract tests
  `data.judge == address(0)` for case existence).
* The FHE capability is taken in its plaintext model: an `euint32` is its
  plaintext value, a `Nat` reduced modulo `2^32` (`FHE.add`/`FHE.sub` wrap),
  and an `ebool` is its plaintext `Bool`.  A Solidity
  `mapping(address => bool)` (and, in the plaintext model,
  `mapping(address => ebool)`) is represented by the `Finset Nat` of
  addresses whose flag is `true`; absent keys default to `false`, matching
  Solidity mapping semantics.
* `block.timestamp`, `block.chainid` and `msg.sender` are explicit
  parameters of each operation.
* A reverting call is `Except.error e`; by construction an error leaves the
  ledger unchanged, which matches the EVM's revert-discards-all-writes
  semantics.
* `votesCast`/`jurorCount` are `uint256` and the plain dev counters are
  `uint32` with Solidity 0.8 checked arithmetic; their increments stay far
  below either bound on any trace considered here (bounded by the juror
  list length), so they are modelled as `Nat` addition.
* FHE ACL bookkeeping (`FHE.allowThis` / `FHE.allow`) has no effect on the
  plaintext values of the tallies and is not part of the modelled state.
-/

namespace JuryChain

/-- The modulus of the `euint32` type: `2 ^ 32`. -/
def W : Nat := 2 ^ 32

/-- `CaseData` from the contract: one jury case.  The three trailing
`Finset Nat` fields embed the per-case mappings `isJuror`, `plainHasVoted`
and (in the plaintext model) `encryptedHasVoted` as the sets of addresses
whose flag is `true`. -/
structure CaseData where
  judge : Nat
  deadline : Nat
  isClosed : Bool
  metadataURI : String
  votesCast : Nat
  jurorCount : Nat
  plainGuilty : Nat
  plainNotGuilty : Nat
  encryptedGuilty : Nat
  encryptedNotGuilty : Nat
  isJuror : Finset Nat
  plainHasVoted : Finset Nat
  encryptedHasVoted : Finset Nat
deriving DecidableEq

/-- The default value of a `CaseData` storage slot: every field zeroed,
which is what `_cases[caseId]` yields before any case is written there. -/
def emptyCase : CaseData :=
  { judge := 0
    deadline := 0
    isClosed := false
    metadataURI := ""
    votesCast := 0
    jurorCount := 0
    plainGuilty := 0
    plainNotGuilty := 0
    encryptedGuilty := 0
    encryptedNotGuilty := 0
    isJuror := ∅
    plainHasVoted := ∅
    encryptedHasVoted := ∅ }

/-- The contract-level storage: `_nextCaseId`, `_cases`, `_caseJurors`
and `_caseIds`. -/
structure Ledger where
  nextCaseId : Nat
  cases : Nat → CaseData
  caseJurors : Nat → List Nat
  caseIds : List Nat

/-- The freshly deployed contract: no cases, counter at zero. -/
def initial : Ledger :=
  { nextCaseId := 0
    cases := fun _ => emptyCase
    caseJurors := fun _ => []
    caseIds := [] }

/-- The custom errors declared by the contract.  These seven constructors
are exactly the `error` declarations of `JuryChain`; the additional
`NoJurors` constructor is *not* declared anywhere in the source.  It is
modelled from the spec: the spec's error taxonomy lists a `NoJurors` error
for case creation with an empty juror list, and it is included here only so
that statements about that (spec-side) error can be expressed. -/
inductive JuryError where
  | CaseNotFound
  | VotingClosed
  | CaseClosedAlready
  | NotJuror
  | AlreadyVoted
  | VotingActive
  | Unauthorized
  | NoJurors
deriving DecidableEq

/-- `CaseFullDetails` from the contract (return type of the batch reads). -/
structure CaseFullDetails where
  caseId : Nat
  judge : Nat
  deadline : Nat
  isClosed : Bool
  metadataURI : String
  votesCast : Nat
  jurorCount : Nat
  jurors : List Nat
  hasVoted : Bool
deriving DecidableEq

/-- The default-initialized `CaseFullDetails` element produced by
`new CaseFullDetails[](n)` in Solidity: every field zeroed. -/
def defaultDetails : CaseFullDetails :=
  { caseId := 0
    judge := 0
    deadline := 0
    isClosed := false
    metadataURI := ""
    votesCast := 0
    jurorCount := 0
    jurors := []
    hasVoted := false }

/-- `createCase(metadataURI, jurors, votingPeriodSeconds)`.
The source reverts `NotJuror` when `jurors.length == 0` (the contract
declares no `NoJurors` error), then allocates `caseId = ++_nextCaseId` and
writes the fresh case: deadline `block.timestamp + votingPeriodSeconds`,
zeroed counters and tallies, the jurors marked authorized with cleared
voted flags.  Returns the new ledger and the new case id. -/
def createCase (L : Ledger) (sender : Nat) (metadataURI : String)
    (jurors : List Nat) (votingPeriodSeconds now : Nat) :
    Except JuryError (Ledger × Nat) :=
  if jurors.length = 0 then .error .NotJuror
  else
    let caseId := L.nextCaseId + 1
    let data : CaseData :=
      { judge := sender
        deadline := now + votingPeriodSeconds
        isClosed := false
        metadataURI := metadataURI
        votesCast := 0
        jurorCount := jurors.length
        plainGuilty := 0
        plainNotGuilty := 0
        encryptedGuilty := 0
        encryptedNotGuilty := 0
        isJuror := jurors.toFinset
        plainHasVoted := ∅
        encryptedHasVoted := ∅ }
    .ok
      ({ nextCaseId := caseId
         cases := fun id => if id = caseId then data else L.cases id
         caseJurors := fun id => if id = caseId then jurors else L.caseJurors id
         caseIds := L.caseIds ++ [caseId] }, caseId)

/-- `castVote(caseId, encryptedGuiltyFlag, inputProof)` in the plaintext
model of the FHE capability.  `voteValue` is the plaintext of the external
encrypted input after a successful `FHE.fromExternal` (proof verification
is outside the plaintext model; a failing proof reverts before any state
change).  The four guards are in source order.  The body computes
`sanitizedVote = select(encryptedHasVoted[sender], 0, voteValue)`,
`invertedVote = 1 - sanitizedVote` (wrapping `euint32` subtraction), adds
them to the guilty / not-guilty tallies, sets both voted flags and
increments `votesCast`. -/
def castVote (L : Ledger) (sender caseId voteValue now : Nat) :
    Except JuryError Ledger :=
  let data := L.cases caseId
  if data.judge = 0 then .error .CaseNotFound
  else if data.isClosed = true ∨ data.deadline ≤ now then .error .VotingClosed
  else if sender ∉ data.isJuror then .error .NotJuror
  else if sender ∈ data.plainHasVoted then .error .AlreadyVoted
  else
    let voteVal := voteValue % W
    let sanitizedVote := if sender ∈ data.encryptedHasVoted then 0 else voteVal
    let invertedVote := (1 + W - sanitizedVote) % W
    let data' : CaseData :=
      { data with
        encryptedGuilty := (data.encryptedGuilty + sanitizedVote) % W
        encryptedNotGuilty := (data.encryptedNotGuilty + invertedVote) % W
        encryptedHasVoted := insert sender data.encryptedHasVoted
        plainHasVoted := insert sender data.plainHasVoted
        votesCast := data.votesCast + 1 }
    .ok { L with cases := fun id => if id = caseId then data' else L.cases id }

/-- `castVoteDev(caseId, isGuilty)`.  Gated first on
`block.chainid`: anything other than `31337` (Hardhat) or `11155111`
(Sepolia) reverts `Unauthorized`.  Then the same four guards as `castVote`,
then a plaintext increment of one tally (encrypted and plain shadow
counter) and the same voted-flag updates. -/
def castVoteDev (L : Ledger) (chainid sender caseId : Nat) (isGuilty : Bool)
    (now : Nat) : Except JuryError Ledger :=
  if chainid ≠ 31337 ∧ chainid ≠ 11155111 then .error .Unauthorized
  else
    let data := L.cases caseId
    if data.judge = 0 then .error .CaseNotFound
    else if data.isClosed = true ∨ data.deadline ≤ now then .error .VotingClosed
    else if sender ∉ data.isJuror then .error .NotJuror
    else if sender ∈ data.plainHasVoted then .error .AlreadyVoted
    else
      let data' : CaseData :=
        if isGuilty then
          { data with
            encryptedGuilty := (data.encryptedGuilty + 1) % W
            plainGuilty := data.plainGuilty + 1
            encryptedHasVoted := insert sender data.encryptedHasVoted
            plainHasVoted := insert sender data.plainHasVoted
            votesCast := data.votesCast + 1 }
        else
          { data with
            encryptedNotGuilty := (data.encryptedNotGuilty + 1) % W
            plainNotGuilty := data.plainNotGuilty + 1
            encryptedHasVoted := insert sender data.encryptedHasVoted
            plainHasVoted := insert sender data.plainHasVoted
            votesCast := data.votesCast + 1 }
      .ok { L with cases := fun id => if id = caseId then data' else L.cases id }

/-- `closeCase(caseId)`: guards in source order (`CaseNotFound`,
`CaseClosedAlready`, `Unauthorized`, then `VotingActive` when
`block.timestamp < deadline && votesCast < jurorCount`); on success sets
`isClosed := true`.  The juror ACL grants have no plaintext effect. -/
def closeCase (L : Ledger) (sender caseId now : Nat) :
    Except JuryError Ledger :=
  let data := L.cases caseId
  if data.judge = 0 then .error .CaseNotFound
  else if data.isClosed = true then .error .CaseClosedAlready
  else if sender ≠ data.judge then .error .Unauthorized
  else if now < data.deadline ∧ data.votesCast < data.jurorCount then
    .error .VotingActive
  else
    .ok { L with
          cases := fun id =>
            if id = caseId then { data with isClosed := true } else L.cases id }

/-- `grantResultAccess(caseId, account)`: guards in source order; on
success only ACL grants happen, so the modelled state is unchanged. -/
def grantResultAccess (L : Ledger) (sender caseId : Nat) :
    Except JuryError Ledger :=
  let data := L.cases caseId
  if data.judge = 0 then .error .CaseNotFound
  else if data.isClosed = false then .error .VotingActive
  else if sender ≠ data.judge then .error .Unauthorized
  else .ok L

/-- `getPlainTallies(caseId)`: reverts `Unauthorized` unless
`block.chainid == 31337`, then `CaseNotFound` on a missing case, then
returns the plain shadow counters. -/
def getPlainTallies (L : Ledger) (chainid caseId : Nat) :
    Except JuryError (Nat × Nat) :=
  if chainid ≠ 31337 then .error .Unauthorized
  else
    let data := L.cases caseId
    if data.judge = 0 then .error .CaseNotFound
    else .ok (data.plainGuilty, data.plainNotGuilty)

/-- `getCaseFullDetails(caseId, viewer)`: reverts `CaseNotFound` on a
missing case, otherwise assembles the full record, with `hasVoted` read
from the viewer's plaintext flag. -/
def getCaseFullDetails (L : Ledger) (caseId viewer : Nat) :
    Except JuryError CaseFullDetails :=
  let data := L.cases caseId
  if data.judge = 0 then .error .CaseNotFound
  else
    .ok
      { caseId := caseId
        judge := data.judge
        deadline := data.deadline
        isClosed := data.isClosed
        metadataURI := data.metadataURI
        votesCast := data.votesCast
        jurorCount := data.jurorCount
        jurors := L.caseJurors caseId
        hasVoted := viewer ∈ data.plainHasVoted }

/-- `getBatchCaseDetails(caseIds, viewer)`: allocates a default-zeroed
array of the input length and fills the slot for every *existing* case id,
leaving (`continue`) the default element in place for missing ones.  It is
a total function: no input reverts. -/
def getBatchCaseDetails (L : Ledger) (ids : List Nat) (viewer : Nat) :
    List CaseFullDetails :=
  ids.map fun caseId =>
    let data := L.cases caseId
    if data.judge = 0 then defaultDetails
    else
      { caseId := caseId
        judge := data.judge
        deadline := data.deadline
        isClosed := data.isClosed
        metadataURI := data.metadataURI
        votesCast := data.votesCast
        jurorCount := data.jurorCount
        jurors := L.caseJurors caseId
        hasVoted := viewer ∈ data.plainHasVoted }

/-! ## Transition system

One `Step` is one successful state-mutating transaction (a reverting call
leaves the ledger unchanged and is therefore not a transition).  Steps are
indexed by the `block.timestamp` at which they execute; `ReachFrom`
chains steps under non-decreasing timestamps, matching the chain's
monotone block time.  `Reach` is reachability from the freshly deployed
contract. -/

inductive Step : Nat → Ledger → Ledger → Prop where
  | create {t : Nat} {L L' : Ledger} (sender : Nat) (uri : String)
      (jurors : List Nat) (p cid : Nat)
      (h : createCase L sender uri jurors p t = .ok (L', cid)) : Step t L L'
  | vote {t : Nat} {L L' : Ledger} (sender caseId v : Nat)
      (h : castVote L sender caseId v t = .ok L') : Step t L L'
  | voteDev {t : Nat} {L L' : Ledger} (chainid sender caseId : Nat) (g : Bool)
      (h : castVoteDev L chainid sender caseId g t = .ok L') : Step t L L'
  | close {t : Nat} {L L' : Ledger} (sender caseId : Nat)
      (h : closeCase L sender caseId t = .ok L') : Step t L L'
  | grant {t : Nat} {L L' : Ledger} (sender caseId : Nat)
      (h : grantResultAccess L sender caseId = .ok L') : Step t L L'

inductive ReachFrom : Ledger → Nat → Ledger → Nat → Prop where
  | refl (L : Ledger) (t : Nat) : ReachFrom L t L t
  | step {L : Ledger} {t : Nat} {L₁ : Ledger} {t₁ : Nat} {L₂ : Ledger}
      {t₂ : Nat} (hr : ReachFrom L t L₁ t₁) (ht : t₁ ≤ t₂)
      (hs : Step t₂ L₁ L₂) : ReachFrom L t L₂ t₂

/-- A ledger state (with an ambient block time) reachable from deployment. -/
def Reach (L : Ledger) (t : Nat) : Prop := ReachFrom initial 0 L t

/-- Per-case invariant: the vote counter equals the number of plaintext
voted flags, every voter is an authorized juror, the distinct-juror count
is bounded by the stored `jurorCount` (the raw list length), the two
encrypted tallies sum to `votesCast` modulo `2^32`, and a closed case has
a nonzero judge. -/
def CaseInv (d : CaseData) : Prop :=
  d.votesCast = d.plainHasVoted.card ∧
  d.plainHasVoted ⊆ d.isJuror ∧
  d.isJuror.card ≤ d.jurorCount ∧
  (d.encryptedGuilty + d.encryptedNotGuilty) % W = d.votesCast % W ∧
  (d.isClosed = true → d.judge ≠ 0)

/-- Ledger invariant: every case slot satisfies `CaseInv` and every
existing case lives at an already-allocated id. -/
def Inv (L : Ledger) : Prop :=
  (∀ id, CaseInv (L.cases id)) ∧
  (∀ id, (L.cases id).judge ≠ 0 → id ≤ L.nextCaseId)

/-- Trace invariant for a case `cid` created by `sender` with juror list
`jurors` and deadline `d0`: the creation-time fields persist, the voted
set stays inside the set of distinct jurors, and the case can only have
been closed at or after its deadline. -/
def DupTrace (sender : Nat) (jurors : List Nat) (d0 cid : Nat)
    (L : Ledger) (t : Nat) : Prop :=
  cid ≤ L.nextCaseId ∧
  (L.cases cid).judge = sender ∧
  (L.cases cid).deadline = d0 ∧
  (L.cases cid).jurorCount = jurors.length ∧
  (L.cases cid).isJuror = jurors.toFinset ∧
  (L.cases cid).votesCast = (L.cases cid).plainHasVoted.card ∧
  (L.cases cid).plainHasVoted ⊆ jurors.toFinset ∧
  ((L.cases cid).isClosed = true → d0 ≤ t)

/-! ## Concrete demonstration states -/

/-- A case on which both authorized jurors have already voted. -/
def demoCase : CaseData :=
  { judge := 9, deadline := 100, isClosed := false, metadataURI := "m",
    votesCast := 2, jurorCount := 2, plainGuilty := 1, plainNotGuilty := 1,
    encryptedGuilty := 1, encryptedNotGuilty := 1,
    isJuror := ([5, 6] : List Nat).toFinset,
    plainHasVoted := ([5, 6] : List Nat).toFinset,
    encryptedHasVoted := ([5, 6] : List Nat).toFinset }

def demoLedger : Ledger :=
  { nextCaseId := 1
    cases := fun id => if id = 1 then demoCase else emptyCase
    caseJurors := fun id => if id = 1 then [5, 6] else []
    caseIds := [1] }

/-- The case produced by `createCase initial 9 "m" [5] 0 0`. -/
def demo1OpenCase : CaseData :=
  { judge := 9, deadline := 0, isClosed := false, metadataURI := "m",
    votesCast := 0, jurorCount := 1, plainGuilty := 0, plainNotGuilty := 0,
    encryptedGuilty := 0, encryptedNotGuilty := 0,
    isJuror := ([5] : List Nat).toFinset,
    plainHasVoted := ∅, encryptedHasVoted := ∅ }

def demo1OpenLedger : Ledger :=
  { nextCaseId := 1
    cases := fun id => if id = 1 then demo1OpenCase else emptyCase
    caseJurors := fun id => if id = 1 then [5] else []
    caseIds := [1] }

def demo1ClosedCase : CaseData := { demo1OpenCase with isClosed := true }

def demo1ClosedLedger : Ledger :=
  { nextCaseId := 1
    cases := fun id =>
      if id = 1 then demo1ClosedCase else demo1OpenLedger.cases id
    caseJurors := demo1OpenLedger.caseJurors
    caseIds := demo1OpenLedger.caseIds }

/-- The case produced by `createCase initial 9 "m" [5, 6] 100 0`. -/
def demo2OpenCase : CaseData :=
  { judge := 9, deadline := 100, isClosed := false, metadataURI := "m",
    votesCast := 0, jurorCount := 2, plainGuilty := 0, plainNotGuilty := 0,
    encryptedGuilty := 0, encryptedNotGuilty := 0,
    isJuror := ([5, 6] : List Nat).toFinset,
    plainHasVoted := ∅, encryptedHasVoted := ∅ }

def demo2OpenLedger : Ledger :=
  { nextCaseId := 1
    cases := fun id => if id = 1 then demo2OpenCase else emptyCase
    caseJurors := fun id => if id = 1 then [5, 6] else []
    caseIds := [1] }

/-- `demo2OpenCase` after juror `5` cast a guilty vote. -/
def demo2VotedCase : CaseData :=
  { demo2OpenCase with
    encryptedGuilty := 1
    encryptedNotGuilty := 0
    encryptedHasVoted := insert 5 (∅ : Finset Nat)
    plainHasVoted := insert 5 (∅ : Finset Nat)
    votesCast := 1 }

def demo2VotedLedger : Ledger :=
  { nextCaseId := 1
    cases := fun id =>
      if id = 1 then demo2VotedCase else demo2OpenLedger.cases id
    caseJurors := demo2OpenLedger.caseJurors
    caseIds := demo2OpenLedger.caseIds }

/-- The case produced by `createCase initial 9 "m" [5, 5] 100 0`: a
duplicated juror list, so `jurorCount = 2` but only one distinct juror. -/
def dupCase : CaseData :=
  { judge := 9, deadline := 100, isClosed := false, metadataURI := "m",
    votesCast := 0, jurorCount := 2, plainGuilty := 0, plainNotGuilty := 0,
    encryptedGuilty := 0, encryptedNotGuilty := 0,
    isJuror := ([5, 5] : List Nat).toFinset,
    plainHasVoted := ∅, encryptedHasVoted := ∅ }

def dupLedger : Ledger :=
  { nextCaseId := 1
    cases := fun id => if id = 1 then dupCase else emptyCase
    caseJurors := fun id => if id = 1 then [5, 5] else []
    caseIds := [1] }

/-- A hypothetical bypass state for the fail-closed analysis: juror `5`
has the *encrypted* has-voted flag set while the *plaintext* flag is still
clear, so the plaintext gate admits the call. -/
def bypassCase : CaseData :=
  { judge := 9, deadline := 100, isClosed := false, metadataURI := "m",
    votesCast := 0, jurorCount := 1, plainGuilty := 0, plainNotGuilty := 0,
    encryptedGuilty := 0, encryptedNotGuilty := 0,
    isJuror := ([5] : List Nat).toFinset,
    plainHasVoted := ∅,
    encryptedHasVoted := insert 5 (∅ : Finset Nat) }

def bypassLedger : Ledger :=
  { nextCaseId := 1
    cases := fun id => if id = 1 then bypassCase else emptyCase
    caseJurors := fun id => if id = 1 then [5] else []
    caseIds := [1] }


/-! ## Success characterizations of the mutating operations -/

/-- Successful `createCase` calls: the guard held and the new ledger is the
old one with the fresh case written at id `nextCaseId + 1`. -/
theorem createCase_ok {L : Ledger} {sender : Nat} {uri : String}
    {jurors : List Nat} {p now : Nat} {L' : Ledger} {cid : Nat}
    (h : createCase L sender uri jurors p now = .ok (L', cid)) :
    jurors.length ≠ 0 ∧ cid = L.nextCaseId + 1 ∧
    L'.nextCaseId = L.nextCaseId + 1 ∧
    (∀ id, id ≠ cid → L'.cases id = L.cases id) ∧
    L'.cases cid =
      { judge := sender, deadline := now + p, isClosed := false,
        metadataURI := uri, votesCast := 0, jurorCount := jurors.length,
        plainGuilty := 0, plainNotGuilty := 0, encryptedGuilty := 0,
        encryptedNotGuilty := 0, isJuror := jurors.toFinset,
        plainHasVoted := ∅, encryptedHasVoted := ∅ } := by
  simp only [createCase] at h
  split_ifs at h with h0
  simp only [Except.ok.injEq, Prod.mk.injEq] at h
  obtain ⟨hL, hcid⟩ := h
  subst hcid
  subst hL
  refine ⟨h0, rfl, rfl, ?_, ?_⟩
  · intro id hid
    simp [hid]
  · simp

/-- Successful `castVote` calls: all four guards held and the target case
is updated with the sanitized-vote arithmetic, every other id untouched. -/
theorem castVote_ok {L : Ledger} {sender caseId v now : Nat} {L' : Ledger}
    (h : castVote L sender caseId v now = .ok L') :
    (L.cases caseId).judge ≠ 0 ∧ (L.cases caseId).isClosed = false ∧
    now < (L.cases caseId).deadline ∧
    sender ∈ (L.cases caseId).isJuror ∧
    sender ∉ (L.cases caseId).plainHasVoted ∧
    L'.nextCaseId = L.nextCaseId ∧
    (∀ id, id ≠ caseId → L'.cases id = L.cases id) ∧
    L'.cases caseId =
      { L.cases caseId with
        encryptedGuilty :=
          ((L.cases caseId).encryptedGuilty +
            (if sender ∈ (L.cases caseId).encryptedHasVoted then 0
             else v % W)) % W
        encryptedNotGuilty :=
          ((L.cases caseId).encryptedNotGuilty +
            (1 + W -
              (if sender ∈ (L.cases caseId).encryptedHasVoted then 0
               else v % W)) % W) % W
        encryptedHasVoted := insert sender (L.cases caseId).encryptedHasVoted
        plainHasVoted := insert sender (L.cases caseId).plainHasVoted
        votesCast := (L.cases caseId).votesCast + 1 } := by
  simp only [castVote] at h
  split_ifs at h with h1 h2 h3 h4 h5
  all_goals
    simp only [Except.ok.injEq] at h
    subst h
    push_neg at h2
    refine ⟨h1, ?_, h2.2, h3, h4, rfl, ?_, ?_⟩
    · simpa using h2.1
    · intro id hid
      simp [hid]
    · simp [h5]

/-- Successful `castVoteDev` calls: the chain-id gate and the four guards
held, and the target case got a plaintext increment on one tally. -/
theorem castVoteDev_ok {L : Ledger} {chainid sender caseId : Nat}
    {g : Bool} {now : Nat} {L' : Ledger}
    (h : castVoteDev L chainid sender caseId g now = .ok L') :
    (chainid = 31337 ∨ chainid = 11155111) ∧
    (L.cases caseId).judge ≠ 0 ∧ (L.cases caseId).isClosed = false ∧
    now < (L.cases caseId).deadline ∧
    sender ∈ (L.cases caseId).isJuror ∧
    sender ∉ (L.cases caseId).plainHasVoted ∧
    L'.nextCaseId = L.nextCaseId ∧
    (∀ id, id ≠ caseId → L'.cases id = L.cases id) ∧
    L'.cases caseId =
      (if g then
        { L.cases caseId with
          encryptedGuilty := ((L.cases caseId).encryptedGuilty + 1) % W
          plainGuilty := (L.cases caseId).plainGuilty + 1
          encryptedHasVoted :=
            insert sender (L.cases caseId).encryptedHasVoted
          plainHasVoted := insert sender (L.cases caseId).plainHasVoted
          votesCast := (L.cases caseId).votesCast + 1 }
      else
        { L.cases caseId with
          encryptedNotGuilty := ((L.cases caseId).encryptedNotGuilty + 1) % W
          plainNotGuilty := (L.cases caseId).plainNotGuilty + 1
          encryptedHasVoted :=
            insert sender (L.cases caseId).encryptedHasVoted
          plainHasVoted := insert sender (L.cases caseId).plainHasVoted
          votesCast := (L.cases caseId).votesCast + 1 }) := by
  simp only [castVoteDev] at h
  split_ifs at h with h0 h1 h2 h3 h4 h5
  all_goals
    simp only [Except.ok.injEq] at h
    subst h
    push_neg at h0
    push_neg at h2
    refine ⟨?_, h1, ?_, h2.2, h3, h4, rfl, ?_, ?_⟩
    · by_cases hc : chainid = 31337
      · exact Or.inl hc
      · exact Or.inr (h0 hc)
    · simpa using h2.1
    · intro id hid
      simp [hid]
    · simp [h5]

/-- Successful `closeCase` calls: existence, openness, judge identity and
the closing condition held, and the case's `isClosed` flag was set. -/
theorem closeCase_ok {L : Ledger} {sender caseId now : Nat} {L' : Ledger}
    (h : closeCase L sender caseId now = .ok L') :
    (L.cases caseId).judge ≠ 0 ∧ (L.cases caseId).isClosed = false ∧
    sender = (L.cases caseId).judge ∧
    ((L.cases caseId).deadline ≤ now ∨
      (L.cases caseId).jurorCount ≤ (L.cases caseId).votesCast) ∧
    L'.nextCaseId = L.nextCaseId ∧
    (∀ id, id ≠ caseId → L'.cases id = L.cases id) ∧
    L'.cases caseId = { L.cases caseId with isClosed := true } := by
  simp only [closeCase] at h
  split_ifs at h with h1 h2 h3 h4
  simp only [Except.ok.injEq] at h
  subst h
  push_neg at h4
  refine ⟨h1, ?_, not_not.mp h3, ?_, rfl, ?_, ?_⟩
  · simpa using h2
  · by_cases hd : now < (L.cases caseId).deadline
    · exact Or.inr (h4 hd)
    · exact Or.inl (le_of_not_lt hd)
  · intro id hid
    simp [hid]
  · simp

/-- Successful `grantResultAccess` calls change no modelled state. -/
theorem grantResultAccess_ok {L : Ledger} {sender caseId : Nat}
    {L' : Ledger} (h : grantResultAccess L sender caseId = .ok L') :
    L' = L := by
  simp only [grantResultAccess] at h
  split_ifs at h with h1 h2 h3
  simp only [Except.ok.injEq] at h
  exact h.symm

/-! ## The ledger invariant -/

theorem caseInv_empty : CaseInv emptyCase := by
  refine ⟨rfl, Finset.empty_subset _, le_refl _, rfl, ?_⟩
  intro h
  simp [emptyCase] at h

theorem inv_initial : Inv initial := by
  exact ⟨fun _ => caseInv_empty, fun id h => absurd rfl h⟩

/-- Arithmetic core of the sanitized-vote tally update: whatever the
sanitized value `sv ≤ 2^32`, adding `sv` to one tally and the wrapped
`1 - sv` to the other advances the modular tally sum by exactly one. -/
theorem tally_add_sanitized {g ng votes sv : Nat} (hsv : sv ≤ W)
    (h : (g + ng) % W = votes % W) :
    ((g + sv) % W + (ng + (1 + W - sv) % W) % W) % W = (votes + 1) % W := by
  simp only [W] at *
  omega

theorem tally_add_one_left {g ng votes : Nat}
    (h : (g + ng) % W = votes % W) :
    ((g + 1) % W + ng) % W = (votes + 1) % W := by
  simp only [W] at *
  omega

theorem tally_add_one_right {g ng votes : Nat}
    (h : (g + ng) % W = votes % W) :
    (g + (ng + 1) % W) % W = (votes + 1) % W := by
  simp only [W] at *
  omega

/-- Every successful transaction preserves the ledger invariant. -/
theorem step_inv {t : Nat} {L L' : Ledger} (hs : Step t L L')
    (hI : Inv L) : Inv L' := by
  obtain ⟨hcase, halloc⟩ := hI
  cases hs with
  | create sender uri jurors p cid h =>
    obtain ⟨hne, hcid, hnext, hframe, hnew⟩ := createCase_ok h
    constructor
    · intro id
      by_cases hid : id = cid
      · subst hid
        rw [hnew]
        refine ⟨by simp, by simp, ?_, by simp, by simp⟩
        simpa using jurors.toFinset_card_le
      · rw [hframe id hid]
        exact hcase id
    · intro id hj
      by_cases hid : id = cid
      · subst hid
        rw [hnext, hcid]
      · rw [hframe id hid] at hj
        have := halloc id hj
        omega
  | vote sender caseId v h =>
    obtain ⟨hj, hcl, hdl, hmem, hnv, hnext, hframe, hnew⟩ := castVote_ok h
    obtain ⟨hA, hB, hC, hD, hE⟩ := hcase caseId
    constructor
    · intro id
      by_cases hid : id = caseId
      · subst hid
        rw [hnew]
        refine ⟨?_, ?_, hC, ?_, ?_⟩
        · simp [Finset.card_insert_of_not_mem hnv, hA]
        · simpa using Finset.insert_subset hmem hB
        · simpa using tally_add_sanitized (by split <;> simp [W, Nat.mod_lt, Nat.le_of_lt]) hD
        · simp [hcl]
      · rw [hframe id hid]
        exact hcase id
    · intro id hjid
      rw [hnext]
      by_cases hid : id = caseId
      · subst hid
        exact halloc id (by rw [hnew] at hjid; simpa using hjid)
      · rw [hframe id hid] at hjid
        exact halloc id hjid
  | voteDev chainid sender caseId g h =>
    obtain ⟨hch, hj, hcl, hdl, hmem, hnv, hnext, hframe, hnew⟩ :=
      castVoteDev_ok h
    obtain ⟨hA, hB, hC, hD, hE⟩ := hcase caseId
    constructor
    · intro id
      by_cases hid : id = caseId
      · subst hid
        rw [hnew]
        cases g with
        | true =>
          refine ⟨?_, ?_, by simpa using hC, ?_, ?_⟩
          · simp [Finset.card_insert_of_not_mem hnv, hA]
          · simpa using Finset.insert_subset hmem hB
          · simpa using tally_add_one_left hD
          · simp [hcl]
        | false =>
          refine ⟨?_, ?_, by simpa using hC, ?_, ?_⟩
          · simp [Finset.card_insert_of_not_mem hnv, hA]
          · simpa using Finset.insert_subset hmem hB
          · simpa using tally_add_one_right hD
          · simp [hcl]
      · rw [hframe id hid]
        exact hcase id
    · intro id hjid
      rw [hnext]
      by_cases hid : id = caseId
      · subst hid
        refine halloc id ?_
        rw [hnew] at hjid
        cases g <;> simpa using hjid
      · rw [hframe id hid] at hjid
        exact halloc id hjid
  | close sender caseId h =>
    obtain ⟨hj, hcl, hjud, hcond, hnext, hframe, hnew⟩ := closeCase_ok h
    obtain ⟨hA, hB, hC, hD, hE⟩ := hcase caseId
    constructor
    · intro id
      by_cases hid : id = caseId
      · subst hid
        rw [hnew]
        exact ⟨hA, hB, hC, hD, fun _ => hj⟩
      · rw [hframe id hid]
        exact hcase id
    · intro id hjid
      rw [hnext]
      by_cases hid : id = caseId
      · subst hid
        exact halloc id (by rw [hnew] at hjid; simpa using hjid)
      · rw [hframe id hid] at hjid
        exact halloc id hjid
  | grant sender caseId h =>
    rw [grantResultAccess_ok h]
    exact ⟨hcase, halloc⟩

theorem reachFrom_inv {L : Ledger} {t : Nat} {L' : Ledger} {t' : Nat}
    (h : ReachFrom L t L' t') (hI : Inv L) : Inv L' := by
  induction h with
  | refl => exact hI
  | step hr ht hs ih => exact step_inv hs ih

theorem reach_inv {L : Ledger} {t : Nat} (h : Reach L t) : Inv L :=
  reachFrom_inv h inv_initial

/-! ## Closed cases stay closed -/

theorem castVote_closed {L : Ledger} {id : Nat}
    (hj : (L.cases id).judge ≠ 0) (hc : (L.cases id).isClosed = true)
    (sender v now : Nat) :
    castVote L sender id v now = .error .VotingClosed := by
  simp only [castVote]
  rw [if_neg hj, if_pos (Or.inl hc)]

theorem castVoteDev_closed {L : Ledger} {id : Nat}
    (hj : (L.cases id).judge ≠ 0) (hc : (L.cases id).isClosed = true)
    {c : Nat} (hch : c = 31337 ∨ c = 11155111) (sender : Nat) (g : Bool)
    (now : Nat) :
    castVoteDev L c sender id g now = .error .VotingClosed := by
  simp only [castVoteDev]
  rw [if_neg (by rcases hch with h | h <;> simp [h]), if_neg hj,
    if_pos (Or.inl hc)]

theorem step_closed_mono {t : Nat} {L L' : Ledger} (hs : Step t L L')
    (hI : Inv L) {id : Nat} (hc : (L.cases id).isClosed = true) :
    (L'.cases id).isClosed = true := by
  cases hs with
  | create sender uri jurors p cid h =>
    obtain ⟨hne, hcid, hnext, hframe, hnew⟩ := createCase_ok h
    have hj : (L.cases id).judge ≠ 0 := ((hI.1 id).2.2.2.2) hc
    have hle : id ≤ L.nextCaseId := hI.2 id hj
    have hid : id ≠ cid := by omega
    rw [hframe id hid]
    exact hc
  | vote sender caseId v h =>
    obtain ⟨hj, hcl, _, _, _, _, hframe, hnew⟩ := castVote_ok h
    by_cases hid : id = caseId
    · subst hid
      rw [hcl] at hc
      exact absurd hc (by simp)
    · rw [hframe id hid]
      exact hc
  | voteDev chainid sender caseId g h =>
    obtain ⟨_, hj, hcl, _, _, _, _, hframe, hnew⟩ := castVoteDev_ok h
    by_cases hid : id = caseId
    · subst hid
      rw [hcl] at hc
      exact absurd hc (by simp)
    · rw [hframe id hid]
      exact hc
  | close sender caseId h =>
    obtain ⟨_, _, _, _, _, hframe, hnew⟩ := closeCase_ok h
    by_cases hid : id = caseId
    · subst hid
      rw [hnew]
    · rw [hframe id hid]
      exact hc
  | grant sender caseId h =>
    rw [grantResultAccess_ok h]
    exact hc

theorem reachFrom_closed_mono {L : Ledger} {t : Nat} {L' : Ledger}
    {t' : Nat} (h : ReachFrom L t L' t') (hI : Inv L) {id : Nat}
    (hc : (L.cases id).isClosed = true) : (L'.cases id).isClosed = true := by
  induction h with
  | refl => exact hc
  | step hr ht hs ih => exact step_closed_mono hs (reachFrom_inv hr hI) ih

/-! ## Duplicated juror lists -/

theorem card_toFinset_lt_of_not_nodup {l : List Nat} (h : ¬ l.Nodup) :
    l.toFinset.card < l.length := by
  have h1 : l.toFinset.card = l.dedup.length := l.card_toFinset
  have h2 : l.dedup.Sublist l := l.dedup_sublist
  have h3 : l.dedup.length ≤ l.length := h2.length_le
  rcases lt_or_eq_of_le h3 with hlt | heq
  · omega
  · exact absurd ((h2.eq_of_length heq) ▸ l.nodup_dedup) h

theorem dupTrace_votes_lt {sender : Nat} {jurors : List Nat} {d0 cid : Nat}
    {L : Ledger} {t : Nat} (hd : DupTrace sender jurors d0 cid L t)
    (hdup : ¬ jurors.Nodup) :
    (L.cases cid).votesCast < (L.cases cid).jurorCount := by
  obtain ⟨-, -, -, hjc, -, hA, hB, -⟩ := hd
  calc (L.cases cid).votesCast
      = (L.cases cid).plainHasVoted.card := hA
    _ ≤ jurors.toFinset.card := Finset.card_le_card hB
    _ < jurors.length := card_toFinset_lt_of_not_nodup hdup
    _ = (L.cases cid).jurorCount := hjc.symm

theorem dupTrace_create {L : Ledger} {sender : Nat} {uri : String}
    {jurors : List Nat} {p tc : Nat} {L₁ : Ledger} {cid : Nat}
    (h : createCase L sender uri jurors p tc = .ok (L₁, cid)) :
    DupTrace sender jurors (tc + p) cid L₁ tc := by
  obtain ⟨hne, hcid, hnext, hframe, hnew⟩ := createCase_ok h
  refine ⟨by omega, ?_, ?_, ?_, ?_, ?_, ?_, ?_⟩ <;> rw [hnew] <;> simp

theorem dupTrace_step {sender : Nat} {jurors : List Nat} {d0 cid : Nat}
    {L : Ledger} {t : Nat} {L' : Ledger} {t' : Nat}
    (hd : DupTrace sender jurors d0 cid L t) (hdup : ¬ jurors.Nodup)
    (ht : t ≤ t') (hs : Step t' L L') :
    DupTrace sender jurors d0 cid L' t' := by
  obtain ⟨hle, hjud, hdl, hjc, hiJ, hA, hB, hcl⟩ := hd
  cases hs with
  | create sender2 uri2 jurors2 p2 cid2 h =>
    obtain ⟨-, hcid2, hnext, hframe, -⟩ := createCase_ok h
    have hid : cid ≠ cid2 := by omega
    refine ⟨by omega, ?_, ?_, ?_, ?_, ?_, ?_, ?_⟩ <;> rw [hframe cid hid]
    exacts [hjud, hdl, hjc, hiJ, hA, hB, fun h2 => le_trans (hcl h2) ht]
  | vote sender2 caseId v h =>
    obtain ⟨hj2, hcl2, hdl2, hmem2, hnv2, hnext, hframe, hnew⟩ :=
      castVote_ok h
    by_cases hid : caseId = cid
    · subst hid
      refine ⟨by omega, ?_, ?_, ?_, ?_, ?_, ?_, ?_⟩ <;> rw [hnew]
      · simpa using hjud
      · simpa using hdl
      · simpa using hjc
      · simpa using hiJ
      · simp [Finset.card_insert_of_not_mem hnv2, hA]
      · simpa using Finset.insert_subset (hiJ ▸ hmem2) hB
      · simp [hcl2]
    · refine ⟨by omega, ?_, ?_, ?_, ?_, ?_, ?_, ?_⟩ <;>
        rw [hframe cid (Ne.symm hid)]
      exacts [hjud, hdl, hjc, hiJ, hA, hB, fun h2 => le_trans (hcl h2) ht]
  | voteDev chainid sender2 caseId g h =>
    obtain ⟨hch, hj2, hcl2, hdl2, hmem2, hnv2, hnext, hframe, hnew⟩ :=
      castVoteDev_ok h
    by_cases hid : caseId = cid
    · subst hid
      refine ⟨by omega, ?_, ?_, ?_, ?_, ?_, ?_, ?_⟩ <;> rw [hnew] <;>
        cases g
      · simpa using hjud
      · simpa using hjud
      · simpa using hdl
      · simpa using hdl
      · simpa using hjc
      · simpa using hjc
      · simpa using hiJ
      · simpa using hiJ
      · simp [Finset.card_insert_of_not_mem hnv2, hA]
      · simp [Finset.card_insert_of_not_mem hnv2, hA]
      · simpa using Finset.insert_subset (hiJ ▸ hmem2) hB
      · simpa using Finset.insert_subset (hiJ ▸ hmem2) hB
      · simp [hcl2]
      · simp [hcl2]
    · refine ⟨by omega, ?_, ?_, ?_, ?_, ?_, ?_, ?_⟩ <;>
        rw [hframe cid (Ne.symm hid)]
      exacts [hjud, hdl, hjc, hiJ, hA, hB, fun h2 => le_trans (hcl h2) ht]
  | close sender2 caseId h =>
    obtain ⟨hj2, hcl2, hjud2, hcond, hnext, hframe, hnew⟩ := closeCase_ok h
    by_cases hid : caseId = cid
    · subst hid
      have hvlt : (L.cases caseId).votesCast < (L.cases caseId).jurorCount :=
        dupTrace_votes_lt ⟨hle, hjud, hdl, hjc, hiJ, hA, hB, hcl⟩ hdup
      have hdle : d0 ≤ t' := by
        rcases hcond with hc1 | hc2
        · rw [hdl] at hc1
          exact hc1
        · omega
      refine ⟨by omega, ?_, ?_, ?_, ?_, ?_, ?_, ?_⟩ <;> rw [hnew]
      · simpa using hjud
      · simpa using hdl
      · simpa using hjc
      · simpa using hiJ
      · simpa using hA
      · simpa using hB
      · exact fun _ => hdle
    · refine ⟨by omega, ?_, ?_, ?_, ?_, ?_, ?_, ?_⟩ <;>
        rw [hframe cid (Ne.symm hid)]
      exacts [hjud, hdl, hjc, hiJ, hA, hB, fun h2 => le_trans (hcl h2) ht]
  | grant sender2 caseId h =>
    rw [grantResultAccess_ok h]
    exact ⟨hle, hjud, hdl, hjc, hiJ, hA, hB,
      fun h2 => le_trans (hcl h2) ht⟩

theorem dupTrace_reachFrom {sender : Nat} {jurors : List Nat} {d0 cid : Nat}
    {L₁ : Ledger} {t₁ : Nat} {L₂ : Ledger} {t₂ : Nat}
    (hr : ReachFrom L₁ t₁ L₂ t₂) (hdup : ¬ jurors.Nodup)
    (hd : DupTrace sender jurors d0 cid L₁ t₁) :
    DupTrace sender jurors d0 cid L₂ t₂ := by
  induction hr with
  | refl => exact hd
  | step hr ht hs ih => exact dupTrace_step ih hdup ht hs

/-! ## Concrete traces for the demonstration states -/

theorem demo1_create : createCase initial 9 "m" [5] 0 0 =
    .ok (demo1OpenLedger, 1) := rfl

theorem demo1_close : closeCase demo1OpenLedger 9 1 0 =
    .ok demo1ClosedLedger := rfl

theorem demo1_reach : Reach demo1ClosedLedger 0 :=
  ReachFrom.step
    (ReachFrom.step (ReachFrom.refl initial 0) (le_refl 0)
      (Step.create 9 "m" [5] 0 1 demo1_create))
    (le_refl 0) (Step.close 9 1 demo1_close)

theorem demo2_create : createCase initial 9 "m" [5, 6] 100 0 =
    .ok (demo2OpenLedger, 1) := rfl

theorem demo2_vote : castVote demo2OpenLedger 5 1 1 0 =
    .ok demo2VotedLedger := rfl

theorem demo2_reach : Reach demo2VotedLedger 0 :=
  ReachFrom.step
    (ReachFrom.step (ReachFrom.refl initial 0) (le_refl 0)
      (Step.create 9 "m" [5, 6] 100 1 demo2_create))
    (le_refl 0) (Step.vote 5 1 1 demo2_vote)

theorem dup_create : createCase initial 9 "m" [5, 5] 100 0 =
    .ok (dupLedger, 1) := rfl

/-! ## The claims -/

/-- C1: the fail-closed sanitization is only half effective.  At a bypass
state (every plaintext precondition passes while the caller's *encrypted*
has-voted flag is already true) the sanitized vote is indeed forced to
zero, so `encryptedGuilty` is unchanged — but the inverted vote
`1 - 0 = 1` is still added to `encryptedNotGuilty`.  So the claim that
"both encrypted tallies are left unaffected" fails on the code: the call
below succeeds and increments the not-guilty tally by one. -/
theorem castVote_bypass_bumps_notGuilty :
    (bypassLedger.cases 1).plainHasVoted = ∅ ∧
    5 ∈ (bypassLedger.cases 1).encryptedHasVoted ∧
    ∃ L', castVote bypassLedger 5 1 1 0 = .ok L' ∧
      (L'.cases 1).encryptedGuilty = (bypassLedger.cases 1).encryptedGuilty ∧
      (L'.cases 1).encryptedNotGuilty =
        ((bypassLedger.cases 1).encryptedNotGuilty + 1) % W ∧
      (L'.cases 1).encryptedNotGuilty ≠
        (bypassLedger.cases 1).encryptedNotGuilty :=
  ⟨rfl, by decide, _, rfl, rfl, rfl, by decide⟩

/-- C2 (counterexample): `createCase` on an empty juror list does not
fail with a `NoJurors` error — the contract declares no such error and
reverts with `NotJuror` instead. -/
theorem createCase_empty_not_NoJurors :
    createCase initial 9 "m" [] 3600 0 ≠ .error .NoJurors ∧
    createCase initial 9 "m" [] 3600 0 = .error .NotJuror :=
  ⟨by simp [createCase], rfl⟩

/-- C2 (amended): for every `createCase` call with an empty juror list,
the call fails with the error `NotJuror` (the code reuses `NotJuror` for
this guard; no `NoJurors` error exists) and no case is created; for every
non-empty juror list this failure does not occur — the call succeeds. -/
theorem createCase_empty_reverts_NotJuror (L : Ledger) (sender : Nat)
    (uri : String) (jurors : List Nat) (p now : Nat) :
    (jurors = [] → createCase L sender uri jurors p now = .error .NotJuror) ∧
    (jurors ≠ [] →
      ∃ L' cid, createCase L sender uri jurors p now = .ok (L', cid)) := by
  constructor
  · intro h
    subst h
    rfl
  · intro h
    have hne : ¬ (jurors.length = 0) := by
      simpa [List.length_eq_zero] using h
    exact ⟨_, _, by simp only [createCase]; rw [if_neg hne]⟩

theorem createCase_empty_reverts_NotJuror_witness :
    createCase initial 9 "m" [] 3600 0 = .error .NotJuror ∧
    ∃ L' cid, createCase initial 9 "m" [5] 3600 0 = .ok (L', cid) :=
  ⟨(createCase_empty_reverts_NotJuror initial 9 "m" [] 3600 0).1 rfl,
   (createCase_empty_reverts_NotJuror initial 9 "m" [5] 3600 0).2
     (by simp)⟩

/-- C3: on every ledger state reachable from deployment, every case slot
satisfies `votesCast ≤ jurorCount`. -/
theorem votesCast_le_jurorCount {L : Ledger} {t : Nat} (h : Reach L t)
    (id : Nat) : (L.cases id).votesCast ≤ (L.cases id).jurorCount := by
  obtain ⟨hA, hB, hC, -, -⟩ := (reach_inv h).1 id
  calc (L.cases id).votesCast
      = (L.cases id).plainHasVoted.card := hA
    _ ≤ (L.cases id).isJuror.card := Finset.card_le_card hB
    _ ≤ (L.cases id).jurorCount := hC

theorem votesCast_le_jurorCount_witness :
    (demo2VotedLedger.cases 1).votesCast = 1 ∧
    (demo2VotedLedger.cases 1).jurorCount = 2 ∧
    (demo2VotedLedger.cases 1).votesCast ≤
      (demo2VotedLedger.cases 1).jurorCount :=
  ⟨rfl, rfl, votesCast_le_jurorCount demo2_reach 1⟩

/-- C4: once a reachable case is closed it stays closed along every
continuation of the trace, and on every such later state a `castVote`
against it fails with `VotingClosed`, as does `castVoteDev` on its
admissible chain ids (on other chain ids `castVoteDev` already fails with
`Unauthorized` before reaching the case).  A failing call returns
`Except.error`, which by construction leaves the ledger unchanged. -/
theorem closed_is_terminal {L : Ledger} {t : Nat} (h : Reach L t)
    (id : Nat) (hc : (L.cases id).isClosed = true) :
    ∀ L' t', ReachFrom L t L' t' →
      (L'.cases id).isClosed = true ∧
      (∀ sender v now, castVote L' sender id v now = .error .VotingClosed) ∧
      (∀ c sender g now, c = 31337 ∨ c = 11155111 →
        castVoteDev L' c sender id g now = .error .VotingClosed) := by
  intro L' t' hr
  have hI := reach_inv h
  have hI' := reachFrom_inv hr hI
  have hc' := reachFrom_closed_mono hr hI hc
  have hj' : (L'.cases id).judge ≠ 0 := ((hI'.1 id).2.2.2.2) hc'
  exact ⟨hc', fun sender v now => castVote_closed hj' hc' sender v now,
    fun c sender g now hch => castVoteDev_closed hj' hc' hch sender g now⟩

theorem closed_is_terminal_witness :
    (demo1ClosedLedger.cases 1).isClosed = true ∧
    castVote demo1ClosedLedger 5 1 1 7 = .error .VotingClosed ∧
    castVoteDev demo1ClosedLedger 31337 5 1 true 7 =
      .error .VotingClosed := by
  have h := closed_is_terminal demo1_reach 1 rfl demo1ClosedLedger 0
    (ReachFrom.refl demo1ClosedLedger 0)
  exact ⟨h.1, h.2.1 5 1 7, h.2.2 31337 5 true 7 (Or.inl rfl)⟩

/-- C5: `castVote` checks its preconditions in source order, each failure
with its own error: missing case → `CaseNotFound`; then closed or past
deadline → `VotingClosed`; then caller not a juror → `NotJuror`; then
plaintext has-voted set → `AlreadyVoted`; when all pass the call
succeeds. -/
theorem castVote_error_order (L : Ledger) (sender caseId v now : Nat) :
    ((L.cases caseId).judge = 0 →
      castVote L sender caseId v now = .error .CaseNotFound) ∧
    ((L.cases caseId).judge ≠ 0 →
      ((L.cases caseId).isClosed = true ∨
        (L.cases caseId).deadline ≤ now) →
      castVote L sender caseId v now = .error .VotingClosed) ∧
    ((L.cases caseId).judge ≠ 0 → (L.cases caseId).isClosed = false →
      now < (L.cases caseId).deadline →
      sender ∉ (L.cases caseId).isJuror →
      castVote L sender caseId v now = .error .NotJuror) ∧
    ((L.cases caseId).judge ≠ 0 → (L.cases caseId).isClosed = false →
      now < (L.cases caseId).deadline →
      sender ∈ (L.cases caseId).isJuror →
      sender ∈ (L.cases caseId).plainHasVoted →
      castVote L sender caseId v now = .error .AlreadyVoted) ∧
    ((L.cases caseId).judge ≠ 0 → (L.cases caseId).isClosed = false →
      now < (L.cases caseId).deadline →
      sender ∈ (L.cases caseId).isJuror →
      sender ∉ (L.cases caseId).plainHasVoted →
      ∃ L', castVote L sender caseId v now = .ok L') := by
  refine ⟨?_, ?_, ?_, ?_, ?_⟩
  · intro h1
    simp only [castVote]
    rw [if_pos h1]
  · intro h1 h2
    simp only [castVote]
    rw [if_neg h1, if_pos h2]
  · intro h1 h2 h3 h4
    simp only [castVote]
    rw [if_neg h1, if_neg (not_or.mpr ⟨by simp [h2], not_le.mpr h3⟩),
      if_pos h4]
  · intro h1 h2 h3 h4 h5
    simp only [castVote]
    rw [if_neg h1, if_neg (not_or.mpr ⟨by simp [h2], not_le.mpr h3⟩),
      if_neg (not_not_intro h4), if_pos h5]
  · intro h1 h2 h3 h4 h5
    exact ⟨_, by
      simp only [castVote]
      rw [if_neg h1, if_neg (not_or.mpr ⟨by simp [h2], not_le.mpr h3⟩),
        if_neg (not_not_intro h4), if_neg h5]⟩

theorem castVote_error_order_witness :
    castVote initial 5 1 1 0 = .error .CaseNotFound ∧
    castVote demoLedger 5 1 1 200 = .error .VotingClosed ∧
    castVote demoLedger 7 1 1 0 = .error .NotJuror ∧
    castVote demoLedger 5 1 1 0 = .error .AlreadyVoted ∧
    ∃ L', castVote demo2OpenLedger 5 1 1 0 = .ok L' :=
  ⟨(castVote_error_order initial 5 1 1 0).1 rfl,
   (castVote_error_order demoLedger 5 1 1 200).2.1 (by decide)
     (Or.inr (by decide)),
   (castVote_error_order demoLedger 7 1 1 0).2.2.1 (by decide) rfl
     (by decide) (by decide),
   (castVote_error_order demoLedger 5 1 1 0).2.2.2.1 (by decide) rfl
     (by decide) (by decide) (by decide),
   (castVote_error_order demo2OpenLedger 5 1 1 0).2.2.2.2 (by decide) rfl
     (by decide) (by decide) (by decide)⟩

/-- C6: on an existing, open case whose caller is the judge (and whose
counters satisfy the reachable-state bound `votesCast ≤ jurorCount`),
`closeCase` fails with `VotingActive` exactly when the call is before the
deadline with `votesCast < jurorCount`, and succeeds — setting the closed
flag — exactly when the deadline has passed or all jurors have voted. -/
theorem closeCase_gating (L : Ledger) (sender caseId now : Nat)
    (hex : (L.cases caseId).judge ≠ 0)
    (hopen : (L.cases caseId).isClosed = false)
    (hjud : sender = (L.cases caseId).judge)
    (hbound : (L.cases caseId).votesCast ≤ (L.cases caseId).jurorCount) :
    (closeCase L sender caseId now = .error .VotingActive ↔
      (now < (L.cases caseId).deadline ∧
        (L.cases caseId).votesCast < (L.cases caseId).jurorCount)) ∧
    ((∃ L', closeCase L sender caseId now = .ok L' ∧
        (L'.cases caseId).isClosed = true) ↔
      ((L.cases caseId).deadline ≤ now ∨
        (L.cases caseId).votesCast = (L.cases caseId).jurorCount)) := by
  have hnc : ¬ ((L.cases caseId).isClosed = true) := by simp [hopen]
  have hnj : ¬ (sender ≠ (L.cases caseId).judge) := not_not_intro hjud
  have hred : closeCase L sender caseId now =
      if now < (L.cases caseId).deadline ∧
          (L.cases caseId).votesCast < (L.cases caseId).jurorCount then
        .error .VotingActive
      else
        .ok { L with
              cases := fun id =>
                if id = caseId then
                  { L.cases caseId with isClosed := true }
                else L.cases id } := by
    simp only [closeCase]
    rw [if_neg hex, if_neg hnc, if_neg hnj]
  rw [hred]
  by_cases hcond : now < (L.cases caseId).deadline ∧
      (L.cases caseId).votesCast < (L.cases caseId).jurorCount
  · rw [if_pos hcond]
    constructor
    · exact ⟨fun _ => hcond, fun _ => rfl⟩
    · constructor
      · rintro ⟨L', hL', -⟩
        exact absurd hL' (by simp)
      · intro hor
        exact absurd hor (by omega)
  · rw [if_neg hcond]
    constructor
    · constructor
      · intro h
        exact absurd h (by simp)
      · intro hc
        exact absurd hc hcond
    · constructor
      · intro _
        omega
      · intro _
        refine ⟨_, rfl, ?_⟩
        simp

theorem closeCase_gating_witness :
    closeCase demo2OpenLedger 9 1 0 = .error .VotingActive ∧
    (∃ L', closeCase demoLedger 9 1 0 = .ok L' ∧
      (L'.cases 1).isClosed = true) :=
  ⟨(closeCase_gating demo2OpenLedger 9 1 0 (by decide) rfl rfl
      (by decide)).1.mpr ⟨by decide, by decide⟩,
   (closeCase_gating demoLedger 9 1 0 (by decide) rfl rfl
      (by decide)).2.mpr (Or.inr (by decide))⟩

/-- C7: the test-only paths are gated on the chain id before anything
else.  For any ledger state, case id and arguments: `castVoteDev` fails
with `Unauthorized` whenever the chain id is neither 31337 nor 11155111
and never yields `Unauthorized` on those two ids, and `getPlainTallies`
fails with `Unauthorized` whenever the chain id is not 31337 (hence on
every production chain id). -/
theorem dev_paths_gated (L : Ledger) (chainid sender caseId : Nat)
    (g : Bool) (now : Nat) :
    (chainid ≠ 31337 → chainid ≠ 11155111 →
      castVoteDev L chainid sender caseId g now = .error .Unauthorized) ∧
    ((chainid = 31337 ∨ chainid = 11155111) →
      castVoteDev L chainid sender caseId g now ≠ .error .Unauthorized) ∧
    (chainid ≠ 31337 →
      getPlainTallies L chainid caseId = .error .Unauthorized) := by
  refine ⟨?_, ?_, ?_⟩
  · intro h1 h2
    simp only [castVoteDev]
    rw [if_pos ⟨h1, h2⟩]
  · intro hch
    simp only [castVoteDev]
    rw [if_neg (by rcases hch with h | h <;> simp [h])]
    split_ifs <;> simp
  · intro h1
    simp only [getPlainTallies]
    rw [if_pos h1]

theorem dev_paths_gated_witness :
    castVoteDev demoLedger 1 5 1 true 0 = .error .Unauthorized ∧
    castVoteDev initial 31337 5 1 true 0 ≠ .error .Unauthorized ∧
    getPlainTallies demoLedger 1 1 = .error .Unauthorized :=
  ⟨(dev_paths_gated demoLedger 1 5 1 true 0).1 (by decide) (by decide),
   (dev_paths_gated initial 31337 5 1 true 0).2.1 (Or.inl rfl),
   (dev_paths_gated demoLedger 1 5 1 true 0).2.2 (by decide)⟩

/-- C8: on every reachable ledger state, every case slot satisfies
`(encryptedGuilty + encryptedNotGuilty) ≡ votesCast (mod 2^32)` in the
plaintext model: creation starts both tallies at zero, a successful
`castVote` adds `sanitizedVote` and the wrapping `1 - sanitizedVote`
(which sum to 1 mod `2^32` for any submitted value), and a successful
`castVoteDev` adds exactly 1 to one tally. -/
theorem tally_sum_mod {L : Ledger} {t : Nat} (h : Reach L t) (id : Nat) :
    ((L.cases id).encryptedGuilty + (L.cases id).encryptedNotGuilty) % W =
      (L.cases id).votesCast % W :=
  ((reach_inv h).1 id).2.2.2.1

theorem tally_sum_mod_witness :
    (demo2VotedLedger.cases 1).encryptedGuilty = 1 ∧
    (demo2VotedLedger.cases 1).encryptedNotGuilty = 0 ∧
    ((demo2VotedLedger.cases 1).encryptedGuilty +
        (demo2VotedLedger.cases 1).encryptedNotGuilty) % W =
      (demo2VotedLedger.cases 1).votesCast % W :=
  ⟨rfl, rfl, tally_sum_mod demo2_reach 1⟩

/-- C9: `createCase` does not deduplicate the juror list, so a case
created (by a nonzero sender) with a repeated address has
`jurorCount` equal to the raw list length while authorization is per
distinct address: along every continuation of the trace,
`votesCast < jurorCount` holds, and as long as the deadline has not
passed a `closeCase` by the judge fails with `VotingActive`. -/
theorem duplicate_jurors_never_all_vote {L : Ledger} {sender : Nat}
    {uri : String} {jurors : List Nat} {p tc : Nat} {L₁ : Ledger}
    {cid : Nat}
    (hcreate : createCase L sender uri jurors p tc = .ok (L₁, cid))
    (hdup : ¬ jurors.Nodup) (hsender : sender ≠ 0) :
    ∀ L₂ t₂, ReachFrom L₁ tc L₂ t₂ →
      (L₂.cases cid).votesCast < (L₂.cases cid).jurorCount ∧
      (∀ t₃, t₂ ≤ t₃ → t₃ < (L₂.cases cid).deadline →
        closeCase L₂ ((L₂.cases cid).judge) cid t₃ =
          .error .VotingActive) := by
  intro L₂ t₂ hr
  obtain ⟨hle, hjud, hdl, hjc, hiJ, hA, hB, hcl⟩ :=
    dupTrace_reachFrom hr hdup (dupTrace_create hcreate)
  have hvlt := dupTrace_votes_lt ⟨hle, hjud, hdl, hjc, hiJ, hA, hB, hcl⟩ hdup
  refine ⟨hvlt, ?_⟩
  intro t₃ hle3 hlt3
  have hnotclosed : ¬ ((L₂.cases cid).isClosed = true) := by
    intro ht
    have := hcl ht
    rw [hdl] at hlt3
    omega
  have hjne : (L₂.cases cid).judge ≠ 0 := by
    rw [hjud]
    exact hsender
  simp only [closeCase]
  rw [if_neg hjne, if_neg hnotclosed, if_neg (not_not_intro rfl),
    if_pos ⟨hlt3, hvlt⟩]

theorem duplicate_jurors_never_all_vote_witness :
    (dupLedger.cases 1).votesCast < (dupLedger.cases 1).jurorCount ∧
    closeCase dupLedger 9 1 50 = .error .VotingActive := by
  have h := duplicate_jurors_never_all_vote dup_create (by decide)
    (by decide) dupLedger 0 (ReachFrom.refl dupLedger 0)
  exact ⟨h.1, h.2 50 (by decide) (by decide)⟩

/-- C10: `getBatchCaseDetails` is total — it never fails with
`CaseNotFound`.  For every input list it returns a list of the same
length, in order; a position whose id has no case record holds the
default-zeroed entry (`caseId = 0`, `judge = 0`) even though the single
accessor `getCaseFullDetails` fails with `CaseNotFound` there, and a
position whose id exists holds exactly what `getCaseFullDetails` returns,
with `hasVoted` read from the viewer's plaintext flag. -/
theorem getBatchCaseDetails_total (L : Ledger) (ids : List Nat)
    (viewer : Nat) :
    (getBatchCaseDetails L ids viewer).length = ids.length ∧
    ∀ i, i < ids.length →
      ((L.cases (ids.getD i 0)).judge = 0 →
        (getBatchCaseDetails L ids viewer).getD i defaultDetails =
          defaultDetails ∧
        getCaseFullDetails L (ids.getD i 0) viewer =
          .error .CaseNotFound) ∧
      ((L.cases (ids.getD i 0)).judge ≠ 0 →
        getCaseFullDetails L (ids.getD i 0) viewer =
          .ok ((getBatchCaseDetails L ids viewer).getD i defaultDetails) ∧
        ((getBatchCaseDetails L ids viewer).getD i
            defaultDetails).caseId = ids.getD i 0 ∧
        ((getBatchCaseDetails L ids viewer).getD i
            defaultDetails).hasVoted =
          decide (viewer ∈ (L.cases (ids.getD i 0)).plainHasVoted)) := by
  constructor
  · simp [getBatchCaseDetails]
  · intro i hi
    have hlen : i < (getBatchCaseDetails L ids viewer).length := by
      simpa [getBatchCaseDetails] using hi
    have h1 : (getBatchCaseDetails L ids viewer).getD i defaultDetails =
        if (L.cases (ids.getD i 0)).judge = 0 then defaultDetails
        else
          { caseId := ids.getD i 0
            judge := (L.cases (ids.getD i 0)).judge
            deadline := (L.cases (ids.getD i 0)).deadline
            isClosed := (L.cases (ids.getD i 0)).isClosed
            metadataURI := (L.cases (ids.getD i 0)).metadataURI
            votesCast := (L.cases (ids.getD i 0)).votesCast
            jurorCount := (L.cases (ids.getD i 0)).jurorCount
            jurors := L.caseJurors (ids.getD i 0)
            hasVoted :=
              decide (viewer ∈ (L.cases (ids.getD i 0)).plainHasVoted) } := by
      rw [List.getD_eq_getElem _ _ hlen, List.getD_eq_getElem _ _ hi]
      simp [getBatchCaseDetails]
    constructor
    · intro hj
      rw [h1, if_pos hj]
      refine ⟨rfl, ?_⟩
      simp only [getCaseFullDetails]
      rw [if_pos hj]
    · intro hj
      rw [h1, if_neg hj]
      refine ⟨?_, rfl, rfl⟩
      simp only [getCaseFullDetails]
      rw [if_neg hj]

theorem getBatchCaseDetails_total_witness :
    (getBatchCaseDetails demoLedger [1, 42] 5).length = 2 ∧
    (getBatchCaseDetails demoLedger [1, 42] 5).getD 1 defaultDetails =
      defaultDetails ∧
    getCaseFullDetails demoLedger 1 5 =
      .ok ((getBatchCaseDetails demoLedger [1, 42] 5).getD 0
        defaultDetails) := by
  have h := getBatchCaseDetails_total demoLedger [1, 42] 5
  exact ⟨h.1, ((h.2 1 (by decide)).1 rfl).1, ((h.2 0 (by decide)).2
    (by decide)).1⟩

end JuryChain
